import Mathlib

/-!
Verification of the RSS summarizer's feed-ingestion core.

The definitions below are a shallow embedding of the JavaScript source:
* `Article.bulkCreateSafeWithDupeCheck` and `Article.cleanOldArticles`
  (the Article model, `backend/models/Article.js`),
* `fetchFeedArticles` / `fetchAllFeeds` and the fallback User-Agent
  rotation (`backend/services/ArticleFetcher.js`),
* `FeedService.validateFeedUrl` (`backend/services/FeedService.js`).

Modelling conventions:
* JS strings are Lean `String`s; a missing / `undefined` / `null` string
  field is modelled as `""` (both are falsy in the `||` chains the code
  uses).
* Timestamps are integers (`Int`); `new Date()` becomes an explicit
  `now : Int` parameter, and the calendar subtraction in
  `cleanOldArticles` becomes `now - daysToKeep` over abstract time units.
* The database is a list of `Article` rows plus a fresh-id counter.
  `Model.create` throws — and the surrounding `catch` swallows the
  error, skipping the candidate — when a Sequelize validator fails
  (`isUrl` on `link`, modelled by an oracle `isUrl : String → Bool`
  standing for the external `validator.isURL`; `len: [1, 500]` on
  `title` and `guid`) or when the row violates one of the two unique
  indexes (`link` globally unique, and `(feedId, guid)` unique — an
  empty `guid` is treated like SQL `NULL` for the index, matching the
  partial index of the duplicate-prevention migration, while the `len`
  validator still runs on it).  Lost connections and other
  infrastructure failures are not modelled.
* Network I/O is modelled by passing each parse attempt's outcome as an
  explicit argument: an `Except` value, or, for the fallback's
  per-User-Agent attempts, a `Nat → AttemptOutcome` oracle that
  distinguishes an HTTP-level rejection (the axios `catch`, which
  rotates to the next User-Agent) from what happens after a successful
  request is piped into feedparser — a parse error (the
  `feedparser.on('error', reject)` handler, which rejects the whole
  fallback at once) or a successful parse.
-/

namespace Rss

/-- A raw parsed feed item as delivered by either parser, before the
normalization map in `fetchFeedArticles`.  String fields are `""` when
absent. -/
structure Item where
  title : String := ""
  link : String := ""
  guid : String := ""
  content : String := ""
  contentSnippet : String := ""
  summary : String := ""
  description : String := ""
  creator : String := ""
  author : String := ""
  pubDate : Option Int := none
  categories : List String := []
  deriving Repr, DecidableEq

/-- A normalized candidate article, the element shape produced by the
`parsedFeed.items.map(...)` step of `fetchFeedArticles` and consumed by
`Article.bulkCreateSafeWithDupeCheck`. -/
structure Candidate where
  title : String := ""
  link : String := ""
  pubDate : Int := 0
  rawContent : String := ""
  author : String := ""
  guid : String := ""
  categories : List String := []
  deriving Repr, DecidableEq

/-- A persisted article row. -/
structure Article where
  id : Nat
  feedId : Nat
  title : String
  link : String
  pubDate : Int
  rawContent : String
  author : String
  guid : String
  categories : List String
  deriving Repr, DecidableEq

/-- The article table: rows plus the next auto-increment id. -/
structure Store where
  articles : List Article
  nextId : Nat
  deriving Repr, DecidableEq

/-- A feed row (the fields `ArticleFetcher` reads or updates). -/
structure FeedRec where
  id : Nat
  url : String := ""
  title : String := ""
  isActive : Bool := true
  lastFetched : Option Int := none
  errorCount : Nat := 0
  deriving Repr, DecidableEq

/-- JavaScript `a || b` on strings (`""` is falsy). -/
def jsOr (a b : String) : String :=
  if a = "" then b else a

/-- JS `String.prototype.trim()`, modelled over the character list
(leading and trailing whitespace removed). -/
def jsTrim (s : String) : String :=
  ⟨((s.data.dropWhile Char.isWhitespace).reverse.dropWhile Char.isWhitespace).reverse⟩

/-- The row built by `this.create({...articleData, feedId})`. -/
def mkArticle (c : Candidate) (feedId : Nat) (id : Nat) : Article :=
  { id := id, feedId := feedId, title := c.title, link := c.link,
    pubDate := c.pubDate, rawContent := c.rawContent, author := c.author,
    guid := c.guid, categories := c.categories }

/-- Projection of a stored row back to its candidate fields. -/
def candidateOf (a : Article) : Candidate :=
  { title := a.title, link := a.link, pubDate := a.pubDate,
    rawContent := a.rawContent, author := a.author, guid := a.guid,
    categories := a.categories }

/-- `existingArticles.map(a => a.link).filter(Boolean)` over the rows of
one feed (the `findAll({where: {feedId}})` result). -/
def linksOfFeed (arts : List Article) (feedId : Nat) : List String :=
  ((arts.filter (fun a => a.feedId == feedId)).map (fun a => a.link)).filter
    (fun s => s != "")

/-- `existingArticles.map(a => a.guid).filter(Boolean)`. -/
def guidsOfFeed (arts : List Article) (feedId : Nat) : List String :=
  ((arts.filter (fun a => a.feedId == feedId)).map (fun a => a.guid)).filter
    (fun s => s != "")

/-- `existingArticles.map(a => a.title).filter(Boolean)`. -/
def titlesOfFeed (arts : List Article) (feedId : Nat) : List String :=
  ((arts.filter (fun a => a.feedId == feedId)).map (fun a => a.title)).filter
    (fun s => s != "")

/-- The in-memory duplicate classification of one candidate against the
three lookup sets, in the code's order: link, then GUID, then title,
each check guarded by the candidate field being non-empty (truthy). -/
def isDupe (c : Candidate) (links guids titles : List String) : Bool :=
  if c.link != "" && links.contains c.link then true
  else if c.guid != "" && guids.contains c.guid then true
  else if c.title != "" && titles.contains c.title then true
  else false

/-- Whether `Model.create` would be rejected by a unique index: the
global unique index on `link`, or the `(feedId, guid)` unique index
(empty guid treated as NULL, never conflicting, matching the partial
index of the duplicate-prevention migration). -/
def conflictsWith (c : Candidate) (feedId : Nat) (arts : List Article) : Bool :=
  arts.any (fun a =>
    a.link == c.link || (c.guid != "" && a.feedId == feedId && a.guid == c.guid))

/-- The Sequelize validators declared on the Article model that can
reject a `create` before it reaches the database: `isUrl` on `link`
(the external `validator.isURL`, passed in as an oracle), and
`len: [1, 500]` on `title` and on `guid`.  The pipeline always passes
`guid` as a string (`item.guid || item.link || ''`), so the `len`
validator also runs — and fails — on the empty string. -/
def validationFails (isUrl : String → Bool) (c : Candidate) : Bool :=
  !(isUrl c.link) || decide (c.title.length < 1) || decide (500 < c.title.length) ||
    decide (c.guid.length < 1) || decide (500 < c.guid.length)

/-- Whether the individual `this.create` throws (a validation error or
a unique-constraint violation); either way the surrounding `catch`
swallows the error and the candidate is skipped. -/
def insertFails (isUrl : String → Bool) (c : Candidate) (feedId : Nat)
    (arts : List Article) : Bool :=
  validationFails isUrl c || conflictsWith c feedId arts

/-- A concrete stand-in for the external `validator.isURL`, agreeing
with it on every string this file evaluates: it accepts exactly the
strings that start with "http://". -/
def isUrlW (s : String) : Bool :=
  "http://".data.isPrefixOf s.data

/-- Loop state of `bulkCreateSafeWithDupeCheck`: the three lookup sets,
the table contents, the id counter and the `newArticles` accumulator. -/
structure DState where
  links : List String
  guids : List String
  titles : List String
  store : List Article
  nextId : Nat
  out : List Article
  deriving Repr, DecidableEq

/-- One iteration of the `for (const articleData of articles)` loop:
skip in-memory duplicates; otherwise attempt the insert, swallowing a
validation or unique-constraint rejection (the skipped candidate's keys
do NOT enter the lookup sets); on a successful insert append the row
and add its non-empty link/guid/title to the lookup sets. -/
def bulkStep (isUrl : String → Bool) (feedId : Nat) (σ : DState) (c : Candidate) :
    DState :=
  if isDupe c σ.links σ.guids σ.titles then σ
  else if insertFails isUrl c feedId σ.store then σ
  else
    let a := mkArticle c feedId σ.nextId
    { links := if c.link != "" then c.link :: σ.links else σ.links
      guids := if c.guid != "" then c.guid :: σ.guids else σ.guids
      titles := if c.title != "" then c.title :: σ.titles else σ.titles
      store := σ.store ++ [a]
      nextId := σ.nextId + 1
      out := σ.out ++ [a] }

/-- Initial loop state: lookup sets built from the feed's existing rows. -/
def initDState (feedId : Nat) (st : Store) : DState :=
  { links := linksOfFeed st.articles feedId
    guids := guidsOfFeed st.articles feedId
    titles := titlesOfFeed st.articles feedId
    store := st.articles
    nextId := st.nextId
    out := [] }

/-- `Article.bulkCreateSafeWithDupeCheck(articles, feedId)`: returns the
list of newly created rows and the updated table. -/
def bulkCreateSafeWithDupeCheck (isUrl : String → Bool) (cands : List Candidate)
    (feedId : Nat) (st : Store) : List Article × Store :=
  let σ := cands.foldl (bulkStep isUrl feedId) (initDState feedId st)
  (σ.out, { articles := σ.store, nextId := σ.nextId })

/-! ### The fetch pipeline (`ArticleFetcher.fetchFeedArticles`) -/

/-- The normalization map of `fetchFeedArticles`
(`parsedFeed.items.map(item => ({...}))`), including the `||` fallback
chains for title, link, content, author and guid, and the `new Date()`
default for a missing `pubDate`. -/
def normalizeItem (now : Int) (it : Item) : Candidate :=
  { title := jsOr it.title "Untitled Article"
    link := jsOr (jsOr it.link it.guid) ""
    pubDate := it.pubDate.getD now
    rawContent := jsOr (jsOr (jsOr (jsOr it.content it.contentSnippet) it.summary)
      it.description) ""
    author := jsOr (jsOr it.creator it.author) ""
    guid := jsOr (jsOr it.guid it.link) ""
    categories := it.categories }

/-- The validity filter: `hasLink && hasDescription`, each conjunct
being JS truthiness of the field and non-emptiness of its trim. -/
def validArticle (c : Candidate) : Bool :=
  (c.link != "" && jsTrim c.link != "") &&
    (c.rawContent != "" && jsTrim c.rawContent != "")

/-- `validArticles` of `fetchFeedArticles`: normalization followed by
the validity filter; exactly the list handed to
`bulkCreateSafeWithDupeCheck`. -/
def validCandidates (now : Int) (items : List Item) : List Candidate :=
  (items.map (normalizeItem now)).filter validArticle

/-- `fetchFeedArticles(feed)`.  The parse outcome (primary parser, or
fallback if the primary failed) is passed in as `parsed`; `.error` means
both parsers failed.  Returns the thrown-or-returned result, the updated
feed row, and the updated article table. -/
def fetchFeedArticles (isUrl : String → Bool) (now : Int) (feed : FeedRec)
    (parsed : Except String (List Item)) (st : Store) :
    Except String Nat × FeedRec × Store :=
  match parsed with
  | .error msg =>
      (.error ("Failed to fetch articles for feed \"" ++ feed.title ++ "\": " ++ msg),
       { feed with lastFetched := some now, errorCount := feed.errorCount + 1 }, st)
  | .ok items =>
      if items.isEmpty then (.ok 0, feed, st)
      else
        let valid := validCandidates now items
        if valid.isEmpty then (.ok 0, feed, st)
        else
          let r := bulkCreateSafeWithDupeCheck isUrl valid feed.id st
          (.ok r.1.length,
           { feed with lastFetched := some now, errorCount := 0 }, r.2)

/-- One feed of a `fetchAllFeeds` run together with its parse outcome. -/
structure FeedJob where
  feed : FeedRec
  parsed : Except String (List Item)

/-- Accumulated state of the `for (const feed of feeds)` loop. -/
structure RunState where
  totalFetched : Nat
  totalErrors : Nat
  updatedFeeds : List FeedRec
  store : Store

/-- The body of `fetchAllFeeds`' loop: each feed is processed in turn;
a throwing feed only bumps `totalErrors`. -/
def fetchAllLoop (isUrl : String → Bool) (now : Int) : List FeedJob → Store → RunState
  | [], st => { totalFetched := 0, totalErrors := 0, updatedFeeds := [], store := st }
  | j :: rest, st =>
      let r := fetchFeedArticles isUrl now j.feed j.parsed st
      let s := fetchAllLoop isUrl now rest r.2.2
      match r.1 with
      | .ok n =>
          { s with totalFetched := n + s.totalFetched,
                   updatedFeeds := r.2.1 :: s.updatedFeeds }
      | .error _ =>
          { s with totalErrors := s.totalErrors + 1,
                   updatedFeeds := r.2.1 :: s.updatedFeeds }

/-- The run summary returned by `fetchAllFeeds`. -/
structure RunSummary where
  totalFetched : Nat
  totalErrors : Nat
  feedsProcessed : Nat
  deriving Repr, DecidableEq

/-- `fetchAllFeeds()`: the `findAll({where:{isActive:true}})` query is
modelled by filtering the supplied jobs on `isActive`; the active feeds
are then processed sequentially. -/
def fetchAllFeeds (isUrl : String → Bool) (now : Int) (jobs : List FeedJob)
    (st : Store) : RunSummary × List FeedRec × Store :=
  let active := jobs.filter (fun j => j.feed.isActive)
  let s := fetchAllLoop isUrl now active st
  ({ totalFetched := s.totalFetched, totalErrors := s.totalErrors,
     feedsProcessed := active.length }, s.updatedFeeds, s.store)

/-- The per-feed outcomes of a sequential run, store threaded through
(a specification-side transcript of the loop). -/
def runResults (isUrl : String → Bool) (now : Int) :
    List FeedJob → Store → List (Except String Nat)
  | [], _ => []
  | j :: rest, st =>
      let r := fetchFeedArticles isUrl now j.feed j.parsed st
      r.1 :: runResults isUrl now rest r.2.2

/-- Inserted count of a successful outcome, 0 for a failure. -/
def okCount : Except String Nat → Nat
  | .ok n => n
  | .error _ => 0

/-- Whether an outcome is a failure. -/
def isErrResult : Except String Nat → Bool
  | .ok _ => false
  | .error _ => true

/-! ### Retention pruning (`Article.cleanOldArticles`) -/

/-- Insert into a pubDate-descending list (stable). -/
def insertDesc (a : Article) : List Article → List Article
  | [] => [a]
  | b :: bs => if a.pubDate ≤ b.pubDate then b :: insertDesc a bs else a :: b :: bs

/-- Sort by `pubDate` descending — the `ORDER BY "pubDate" DESC` of the
window query (ties left in a deterministic stable order; SQL leaves tie
order unspecified). -/
def sortDesc (l : List Article) : List Article :=
  l.foldr insertDesc []

/-- The rows of one feed. -/
def articlesOfFeed (arts : List Article) (feedId : Nat) : List Article :=
  arts.filter (fun a => a.feedId == feedId)

/-- The distinct feed ids appearing in the table (the partitions of the
`PARTITION BY "feedId"` window query). -/
def feedIdsOf (arts : List Article) : List Nat :=
  (arts.map (fun a => a.feedId)).dedup

/-- Ids selected by the excess query: for every feed, the rows ranked
beyond `cap` when that feed's rows are ordered by `pubDate` descending. -/
def excessIds (arts : List Article) (cap : Nat) : List Nat :=
  (feedIdsOf arts).flatMap
    (fun f => ((sortDesc (articlesOfFeed arts f)).drop cap).map (fun a => a.id))

/-- `Article.cleanOldArticles(daysToKeep, articlesPerFeedToKeep)`:
collect the age-based ids and the per-feed excess ids, concatenate, and
issue one `destroy({where:{id: allArticleIds}})`, returning the number
of rows it removed. -/
def cleanOldArticles (now : Int) (daysToKeep : Int) (cap : Nat) (st : Store) :
    Nat × Store :=
  let cutoff := now - daysToKeep
  let oldIds := (st.articles.filter (fun a => a.pubDate < cutoff)).map (fun a => a.id)
  let allIds := oldIds ++ excessIds st.articles cap
  if allIds.isEmpty then (0, st)
  else
    let remaining := st.articles.filter (fun a => !(allIds.contains a.id))
    (st.articles.length - remaining.length, { st with articles := remaining })

/-! ### The fallback User-Agent rotation (`parseWithFeedParser`) -/

/-- The five User-Agent strings of the fallback strategy, in declared
order. -/
def userAgents : List String :=
  ["Mozilla/5.0 (Windows NT 10.0; Win64; x64) AppleWebKit/537.36 (KHTML, like Gecko) Chrome/120.0.0.0 Safari/537.36",
   "Mozilla/5.0 (Macintosh; Intel Mac OS X 10_15_7) AppleWebKit/537.36 (KHTML, like Gecko) Chrome/120.0.0.0 Safari/537.36",
   "Mozilla/5.0 (X11; Linux x86_64) AppleWebKit/537.36 (KHTML, like Gecko) Chrome/120.0.0.0 Safari/537.36",
   "RSS Feed Reader Bot/1.0",
   "Feedfetcher-Google; (+http://www.google.com/feedfetcher.html)"]

/-- The three ways one User-Agent attempt of the fallback can end:
the axios request rejects (`catch` runs, the rotation moves on), or the
request resolves and the body is piped into feedparser, which then
either emits `error` — rejecting the whole promise via
`feedparser.on('error', reject)`, with no further attempts — or parses
to `end`, resolving. -/
inductive AttemptOutcome where
  | httpFail
  | parseFail
  | parseOk
  deriving Repr, DecidableEq

/-- The `tryRequest` retry loop.  `attempt i` is the outcome of the
attempt with User-Agent index `i`.  `d` is the delay (ms) waited before
the current attempt (`0` initially, `1000` from the
`setTimeout(tryRequest, 1000)` of every retry), `i` the current index,
and the `Nat` argument the number of User-Agents not yet tried (the
`currentAgent >= userAgents.length` guard).  Only an HTTP-level failure
rotates to the next User-Agent; a feedparser error after a successful
request rejects immediately.  Returns the trace of attempts as
`(delayBefore, uaIndex)` pairs and whether the fallback succeeded. -/
def tryRequestGo (attempt : Nat → AttemptOutcome) (d i : Nat) :
    Nat → List (Nat × Nat) × Bool
  | 0 => ([], false)
  | remaining + 1 =>
      match attempt i with
      | .parseOk => ([(d, i)], true)
      | .parseFail => ([(d, i)], false)
      | .httpFail =>
          if remaining = 0 then ([(d, i)], false)
          else
            let r := tryRequestGo attempt 1000 (i + 1) remaining
            ((d, i) :: r.1, r.2)

/-- The whole rotation, started at the first User-Agent with no delay. -/
def tryRequest (attempt : Nat → AttemptOutcome) : List (Nat × Nat) × Bool :=
  tryRequestGo attempt 0 0 userAgents.length

/-! ### Feed-URL validation (`FeedService.validateFeedUrl`) -/

/-- An error value as thrown by axios / the parsers: a message plus the
optional `code` property (`""` when absent). -/
structure JsError where
  message : String
  code : String := ""
  deriving Repr, DecidableEq

/-- Feed metadata as returned by a successful parse. -/
structure FeedMeta where
  title : String := ""
  description : String := ""
  link : String := ""
  language : String := ""
  deriving Repr, DecidableEq

/-- `s.includes(pat)`: `pat` occurs as a contiguous substring of `s`. -/
def strIncludes (s pat : String) : Bool :=
  s.data.tails.any (fun t => pat.data.isPrefixOf t)

/-- The `allowableErrors` list of `validateFeedUrl`, verbatim. -/
def allowableErrors : List String :=
  ["Response code 403",
   "Status code 403",
   "Response code 429",
   "Status code 429",
   "Response code 503",
   "Status code 503",
   "ETIMEDOUT",
   "ENOTFOUND",
   "ECONNREFUSED",
   "socket hang up",
   "timeout",
   "Request timeout",
   "getaddrinfo ENOTFOUND",
   "Non-whitespace before first tag",
   "Invalid character in entity name",
   "Unexpected end of input"]

/-- `allowableErrors.some(ae => err.message.includes(ae) || err.code === ae)`. -/
def isAllowableError (e : JsError) : Bool :=
  allowableErrors.any (fun ae => strIncludes e.message ae || e.code == ae)

/-- The result object of `validateFeedUrl`. -/
structure ValidationResult where
  valid : Bool
  warning : Option String := none
  error : Option String := none
  feedInfo : Option FeedMeta := none
  deriving Repr, DecidableEq

/-- The placeholder metadata returned on an allow-listed double failure. -/
def placeholderFeedInfo (url : String) : FeedMeta :=
  { title := "Feed Title (Unable to fetch)"
    description := "Description will be updated when feed becomes accessible"
    link := url
    language := "en" }

/-- `FeedService.validateFeedUrl(url)`, with the two parse outcomes as
arguments (`fallback` is only consulted when `primary` fails). -/
def validateFeedUrl (url : String) (primary : Except JsError FeedMeta)
    (fallback : Except JsError FeedMeta) : ValidationResult :=
  match primary with
  | .ok feed =>
      { valid := true, warning := none,
        feedInfo := some { title := feed.title, description := feed.description,
                           link := feed.link, language := jsOr feed.language "en" } }
  | .error pe =>
      match fallback with
      | .ok feed =>
          { valid := true,
            warning := some "Feed parsed successfully using fallback parser (feedparser)",
            feedInfo := some { title := feed.title, description := feed.description,
                               link := feed.link, language := jsOr feed.language "en" } }
      | .error fe =>
          if isAllowableError pe || isAllowableError fe then
            { valid := true,
              warning := some ("Feed may not be accessible right now (both parsers failed), but will be created anyway. Primary: "
                ++ pe.message ++ ", Fallback: " ++ fe.message),
              feedInfo := some (placeholderFeedInfo url) }
          else
            { valid := false,
              error := some ("Both parsers failed. Primary: " ++ pe.message
                ++ ", Fallback: " ++ fe.message) }

/-! ### General helper lemmas -/

theorem data_append (s t : String) : (s ++ t).data = s.data ++ t.data := by
  cases s; cases t; rfl

theorem isEmpty_validCandidates_of_nil (now : Int) :
    validCandidates now [] = [] := rfl

theorem items_ne_nil_of_valid (now : Int) {items : List Item}
    (h : validCandidates now items ≠ []) : items.isEmpty = false := by
  cases items with
  | nil => exact absurd rfl h
  | cons a l => rfl

/-! ### C4 — feed error-state transitions of `fetchFeedArticles` -/

/-- C4: `errorCount` resets to 0 and `lastFetched` is set to now whenever
the fetch succeeds with a non-empty valid candidate list; `errorCount`
increments by exactly 1 (and `lastFetched` is set to now) whenever the
fetch fails; and a parse that yields zero valid candidates returns
`insertedCount = 0` leaving the feed row untouched. -/
theorem fetchFeedArticles_error_state (isUrl : String → Bool) (now : Int)
    (feed : FeedRec) (st : Store) :
    (∀ items : List Item, validCandidates now items ≠ [] →
      (fetchFeedArticles isUrl now feed (.ok items) st).2.1.errorCount = 0 ∧
      (fetchFeedArticles isUrl now feed (.ok items) st).2.1.lastFetched = some now ∧
      ∃ n, (fetchFeedArticles isUrl now feed (.ok items) st).1 = .ok n) ∧
    (∀ e : String,
      (fetchFeedArticles isUrl now feed (.error e) st).2.1.errorCount = feed.errorCount + 1 ∧
      (fetchFeedArticles isUrl now feed (.error e) st).2.1.lastFetched = some now ∧
      isErrResult (fetchFeedArticles isUrl now feed (.error e) st).1 = true ∧
      (fetchFeedArticles isUrl now feed (.error e) st).2.2 = st) ∧
    (∀ items : List Item, validCandidates now items = [] →
      fetchFeedArticles isUrl now feed (.ok items) st = (.ok 0, feed, st)) := by
  refine ⟨?_, ?_, ?_⟩
  · intro items hv
    have hne := items_ne_nil_of_valid now hv
    have hne2 : (validCandidates now items).isEmpty = false := by
      cases h : validCandidates now items with
      | nil => exact absurd h hv
      | cons a l => rfl
    simp [fetchFeedArticles, hne, hne2]
  · intro e
    simp [fetchFeedArticles, isErrResult]
  · intro items hv
    by_cases hne : items.isEmpty
    · simp [fetchFeedArticles, hne]
    · simp only [Bool.not_eq_true] at hne
      simp [fetchFeedArticles, hne, hv]

/-- A concrete item used by several witnesses. -/
def wItem : Item :=
  { title := "T", link := "http://a", content := "body" }

/-- A concrete feed row used by several witnesses. -/
def wFeed : FeedRec :=
  { id := 1, errorCount := 3 }

/-- The empty store used by several witnesses. -/
def wStore : Store :=
  { articles := [], nextId := 0 }

/-- Witness for C4 at a concrete feed and item list. -/
theorem fetchFeedArticles_error_state_witness :
    ((fetchFeedArticles isUrlW 5 wFeed (.ok [wItem]) wStore).2.1.errorCount = 0 ∧
      (fetchFeedArticles isUrlW 5 wFeed (.ok [wItem]) wStore).2.1.lastFetched = some 5) ∧
    (fetchFeedArticles isUrlW 5 wFeed (.error "boom") wStore).2.1.errorCount = 4 ∧
    fetchFeedArticles isUrlW 5 wFeed (.ok []) wStore = (.ok 0, wFeed, wStore) := by
  have h := fetchFeedArticles_error_state isUrlW 5 wFeed wStore
  have h1 := h.1 [wItem] (by decide)
  exact ⟨⟨h1.1, h1.2.1⟩, (h.2.1 "boom").1, h.2.2 [] rfl⟩

/-! ### C8 — validity filter invariant -/

/-- C8: every candidate surviving the `validArticles` filter has a
non-empty trimmed link and non-empty trimmed rawContent, and whenever
that filtered list is non-empty `fetchFeedArticles` hands exactly it to
`bulkCreateSafeWithDupeCheck` (no insert is attempted on any other
list). -/
theorem validity_filter_invariant (isUrl : String → Bool) (now : Int)
    (items : List Item) :
    (∀ c ∈ validCandidates now items, jsTrim c.link ≠ "" ∧ jsTrim c.rawContent ≠ "") ∧
    (∀ (feed : FeedRec) (st : Store), validCandidates now items ≠ [] →
      fetchFeedArticles isUrl now feed (.ok items) st =
        (.ok (bulkCreateSafeWithDupeCheck isUrl (validCandidates now items) feed.id st).1.length,
         { feed with lastFetched := some now, errorCount := 0 },
         (bulkCreateSafeWithDupeCheck isUrl (validCandidates now items) feed.id st).2)) := by
  constructor
  · intro c hc
    have hmem := (List.mem_filter.mp hc).2
    simp only [validArticle, Bool.and_eq_true, bne_iff_ne, ne_eq] at hmem
    exact ⟨hmem.1.2, hmem.2.2⟩
  · intro feed st hv
    have hne := items_ne_nil_of_valid now hv
    have hne2 : (validCandidates now items).isEmpty = false := by
      cases h : validCandidates now items with
      | nil => exact absurd h hv
      | cons a l => rfl
    simp [fetchFeedArticles, hne, hne2]

/-- The candidate `wItem` normalizes to. -/
def wCand : Candidate :=
  normalizeItem 5 wItem

/-- Witness for C8 at a concrete item list. -/
theorem validity_filter_invariant_witness :
    (jsTrim wCand.link ≠ "" ∧ jsTrim wCand.rawContent ≠ "") ∧
    fetchFeedArticles isUrlW 5 wFeed (.ok [wItem]) wStore =
      (.ok (bulkCreateSafeWithDupeCheck isUrlW (validCandidates 5 [wItem]) wFeed.id wStore).1.length,
       { wFeed with lastFetched := some 5, errorCount := 0 },
       (bulkCreateSafeWithDupeCheck isUrlW (validCandidates 5 [wItem]) wFeed.id wStore).2) := by
  have h := validity_filter_invariant isUrlW 5 [wItem]
  refine ⟨h.1 wCand (by decide), ?_⟩
  exact h.2 wFeed wStore (by decide)

/-! ### C9 — uniqueness-conflict swallowing -/

/-- C9: a candidate that passes the in-memory duplicate filter but whose
individual insert hits a unique-constraint rejection is skipped — the
loop state (lookup sets, table, `newArticles`) is unchanged — and the
remaining candidates are still processed, with the call returning
normally (the model is a total function; the code's `catch` around the
single `create` neither rethrows nor aborts the loop). -/
theorem conflict_swallowed (isUrl : String → Bool) (feedId : Nat) (σ : DState)
    (c : Candidate) (rest : List Candidate)
    (hnd : isDupe c σ.links σ.guids σ.titles = false)
    (hc : conflictsWith c feedId σ.store = true) :
    bulkStep isUrl feedId σ c = σ ∧
    (c :: rest).foldl (bulkStep isUrl feedId) σ = rest.foldl (bulkStep isUrl feedId) σ ∧
    ((c :: rest).foldl (bulkStep isUrl feedId) σ).out = (rest.foldl (bulkStep isUrl feedId) σ).out := by
  have hstep : bulkStep isUrl feedId σ c = σ := by
    simp [bulkStep, insertFails, hnd, hc]
  refine ⟨hstep, ?_, ?_⟩ <;> simp [List.foldl_cons, hstep]

/-- A store holding one row of a *different* feed that shares the link
`wConf` will try to insert. -/
def wForeignStore : Store :=
  { articles := [{ id := 1, feedId := 9, title := "Z", link := "http://a",
                   pubDate := 0, rawContent := "c", author := "", guid := "z",
                   categories := [] }],
    nextId := 2 }

/-- A candidate colliding (by link) with `wForeignStore`'s foreign row. -/
def wConf : Candidate :=
  { title := "A", link := "http://a", rawContent := "x" }

/-- Witness for C9: a candidate whose link collides with another feed's
row passes the in-memory filter, its insert conflicts, and it is
skipped with the loop state unchanged. -/
theorem conflict_swallowed_witness :
    isDupe wConf (initDState 7 wForeignStore).links (initDState 7 wForeignStore).guids
        (initDState 7 wForeignStore).titles = false ∧
    bulkStep isUrlW 7 (initDState 7 wForeignStore) wConf = initDState 7 wForeignStore := by
  refine ⟨by decide, ?_⟩
  exact (conflict_swallowed isUrlW 7 _ _ [] (by decide) (by decide)).1

/-! ### C10 — link/guid cross-fallback in normalization -/

/-- The counterexample item for C10: empty link, non-empty (but
whitespace-only) guid, non-empty content. -/
def c10Item : Item :=
  { title := "T", link := "", guid := " ", content := "body" }

/-- C10 as stated is false: this item has a missing link and a non-empty
guid, normalization does copy the guid into the link field, yet the
candidate fails the validity filter (its trimmed link is empty) and is
discarded, never persisted. -/
theorem cross_fallback_counterexample :
    c10Item.link = "" ∧ c10Item.guid ≠ "" ∧
    (normalizeItem 0 c10Item).link = c10Item.guid ∧
    validCandidates 0 [c10Item] = [] ∧
    (bulkCreateSafeWithDupeCheck isUrlW (validCandidates 0 [c10Item]) 1
      { articles := [], nextId := 0 }).1 = [] := by
  refine ⟨rfl, by decide, rfl, by decide, by decide⟩

/-- C10 amended: normalization copies a non-empty guid into a missing
link field (and symmetrically a non-empty link into a missing guid);
such a candidate passes the validity filter exactly when the guid is
non-whitespace and the content non-empty, and any row it does produce
carries the guid in its link column. -/
theorem cross_fallback_amended (now : Int) (it : Item) :
    (it.link = "" → it.guid ≠ "" →
      (normalizeItem now it).link = it.guid ∧
      (normalizeItem now it).guid = it.guid ∧
      (validArticle (normalizeItem now it) = true ↔
        (jsTrim it.guid ≠ "" ∧ (normalizeItem now it).rawContent ≠ "" ∧
         jsTrim (normalizeItem now it).rawContent ≠ "")) ∧
      (∀ (isUrl : String → Bool) (feedId : Nat) (st : Store),
        ∀ a ∈ (bulkCreateSafeWithDupeCheck isUrl [normalizeItem now it] feedId st).1,
          a.link = it.guid)) ∧
    (it.guid = "" → it.link ≠ "" →
      (normalizeItem now it).guid = it.link ∧
      (normalizeItem now it).link = it.link) := by
  constructor
  · intro hl hg
    have hlink : (normalizeItem now it).link = it.guid := by
      simp [normalizeItem, jsOr, hl, hg]
    have hguid : (normalizeItem now it).guid = it.guid := by
      simp [normalizeItem, jsOr, hl, hg]
    refine ⟨hlink, hguid, ?_, ?_⟩
    · simp only [validArticle, Bool.and_eq_true, bne_iff_ne, ne_eq, hlink]
      constructor
      · rintro ⟨⟨-, h2⟩, h3, h4⟩
        exact ⟨h2, h3, h4⟩
      · rintro ⟨h2, h3, h4⟩
        refine ⟨⟨hg, h2⟩, h3, h4⟩
    · intro isUrl feedId st a ha
      simp only [bulkCreateSafeWithDupeCheck, List.foldl_cons, List.foldl_nil] at ha
      rw [bulkStep] at ha
      split at ha
      · simp [initDState] at ha
      · split at ha
        · simp [initDState] at ha
        · simp only [initDState, List.nil_append, List.mem_singleton] at ha
          subst ha
          exact hlink
  · intro hg hl
    constructor <;> simp [normalizeItem, jsOr, hl, hg]

/-- An item with no link but a genuine guid and real content. -/
def wGuidOnlyItem : Item :=
  { title := "T", link := "", guid := "urn:g1", content := "body" }

/-- Witness for the amended C10: a real guid is used as the link and the
candidate survives the filter. -/
theorem cross_fallback_amended_witness :
    (normalizeItem 0 wGuidOnlyItem).link = "urn:g1" ∧
    validArticle (normalizeItem 0 wGuidOnlyItem) = true := by
  have h := (cross_fallback_amended 0 wGuidOnlyItem).1 rfl (by decide)
  exact ⟨h.1, h.2.2.1.mpr (by decide)⟩

/-! ### C7 — transient-failure allow-list in `validateFeedUrl` -/

/-- C7: when both parser strategies fail, validation succeeds with the
placeholder metadata and a warning quoting both error messages exactly
when either failure matches the transient-failure allow-list; a
non-matching double failure yields `valid = false` with an error naming
both parsers' messages. -/
theorem validateFeedUrl_allowlist (url : String) (pe fe : JsError) :
    ((isAllowableError pe || isAllowableError fe) = true →
      (validateFeedUrl url (.error pe) (.error fe)).valid = true ∧
      (validateFeedUrl url (.error pe) (.error fe)).warning =
        some ("Feed may not be accessible right now (both parsers failed), but will be created anyway. Primary: "
          ++ pe.message ++ ", Fallback: " ++ fe.message) ∧
      (∃ w, (validateFeedUrl url (.error pe) (.error fe)).warning = some w ∧
        pe.message.data <:+: w.data ∧ fe.message.data <:+: w.data) ∧
      (validateFeedUrl url (.error pe) (.error fe)).feedInfo =
        some (placeholderFeedInfo url) ∧
      (validateFeedUrl url (.error pe) (.error fe)).error = none) ∧
    ((isAllowableError pe || isAllowableError fe) = false →
      (validateFeedUrl url (.error pe) (.error fe)).valid = false ∧
      (∃ s, (validateFeedUrl url (.error pe) (.error fe)).error = some s ∧
        pe.message.data <:+: s.data ∧ fe.message.data <:+: s.data) ∧
      (validateFeedUrl url (.error pe) (.error fe)).feedInfo = none) ∧
    ((validateFeedUrl url (.error pe) (.error fe)).valid = true ↔
      (isAllowableError pe || isAllowableError fe) = true) := by
  by_cases h : (isAllowableError pe || isAllowableError fe) = true
  · refine ⟨fun _ => ?_, fun hfalse => by simp [h] at hfalse, ?_⟩
    · refine ⟨by simp [validateFeedUrl, h], by simp [validateFeedUrl, h], ?_,
        by simp [validateFeedUrl, h], by simp [validateFeedUrl, h]⟩
      refine ⟨"Feed may not be accessible right now (both parsers failed), but will be created anyway. Primary: "
          ++ pe.message ++ ", Fallback: " ++ fe.message,
        by simp [validateFeedUrl, h], ?_, ?_⟩
      · exact ⟨"Feed may not be accessible right now (both parsers failed), but will be created anyway. Primary: ".data,
          (", Fallback: " ++ fe.message).data, by simp [data_append]⟩
      · exact ⟨("Feed may not be accessible right now (both parsers failed), but will be created anyway. Primary: "
          ++ pe.message ++ ", Fallback: ").data, [], by simp [data_append]⟩
    · simp [validateFeedUrl, h]
  · simp only [Bool.not_eq_true] at h
    refine ⟨fun htrue => by simp [h] at htrue, fun _ => ?_, ?_⟩
    · refine ⟨by simp [validateFeedUrl, h], ?_, by simp [validateFeedUrl, h]⟩
      refine ⟨"Both parsers failed. Primary: " ++ pe.message ++ ", Fallback: " ++ fe.message,
        by simp [validateFeedUrl, h], ?_, ?_⟩
      · exact ⟨"Both parsers failed. Primary: ".data,
          (", Fallback: " ++ fe.message).data, by simp [data_append]⟩
      · exact ⟨("Both parsers failed. Primary: " ++ pe.message ++ ", Fallback: ").data,
          [], by simp [data_append]⟩
    · simp [validateFeedUrl, h]

/-- Witness for C7: an HTTP 429 from both strategies validates with the
placeholder metadata; an unrecognized failure is rejected. -/
theorem validateFeedUrl_allowlist_witness :
    (validateFeedUrl "http://feed" (.error { message := "Status code 429" })
      (.error { message := "Status code 429" })).valid = true ∧
    (validateFeedUrl "http://feed" (.error { message := "Status code 429" })
      (.error { message := "Status code 429" })).feedInfo =
        some (placeholderFeedInfo "http://feed") ∧
    (validateFeedUrl "http://feed" (.error { message := "parse exploded" })
      (.error { message := "weird" })).valid = false := by
  have h1 := (validateFeedUrl_allowlist "http://feed" { message := "Status code 429" }
    { message := "Status code 429" }).1 (by decide)
  have h2 := ((validateFeedUrl_allowlist "http://feed" { message := "parse exploded" }
    { message := "weird" }).2.1 (by decide)).1
  exact ⟨h1.1, h1.2.2.2.1, h2⟩

/-! ### C6 — fallback User-Agent rotation -/

theorem map_getD_range {α : Type} (l : List α) (d : α) :
    ∀ n, n ≤ l.length → (List.range n).map (fun i => l.getD i d) = l.take n := by
  intro n
  induction n with
  | zero => simp
  | succ k ih =>
      intro h
      have hk : k < l.length := by omega
      rw [List.range_succ, List.map_append, ih (by omega), List.take_succ]
      simp [List.getD_eq_getElem?_getD, List.getElem?_eq_getElem hk]

/-- Behaviour of the `tryRequest` recursion, for any starting delay,
User-Agent index and remaining-attempt budget.  An attempt can end in
three ways; only `httpFail` rotates onward, so attempts before the last
are all HTTP failures, and a run ends with `parseOk` (resolve),
`parseFail` (the feedparser `error` rejection) or the budget exhausted
on an HTTP failure. -/
theorem tryRequestGo_spec (attempt : Nat → AttemptOutcome) :
    ∀ (rem d i : Nat),
      ((tryRequestGo attempt d i rem).1.map Prod.snd =
        List.range' i (tryRequestGo attempt d i rem).1.length) ∧
      ((tryRequestGo attempt d i rem).1.map Prod.fst =
        if (tryRequestGo attempt d i rem).1.length = 0 then []
        else d :: List.replicate ((tryRequestGo attempt d i rem).1.length - 1) 1000) ∧
      ((tryRequestGo attempt d i rem).1.length ≤ rem) ∧
      ((tryRequestGo attempt d i rem).2 = true →
        0 < (tryRequestGo attempt d i rem).1.length ∧
        attempt (i + ((tryRequestGo attempt d i rem).1.length - 1)) = .parseOk ∧
        ∀ j < (tryRequestGo attempt d i rem).1.length - 1,
          attempt (i + j) = .httpFail) ∧
      ((tryRequestGo attempt d i rem).2 = false →
        (∀ j < (tryRequestGo attempt d i rem).1.length - 1,
          attempt (i + j) = .httpFail) ∧
        (0 < rem → 0 < (tryRequestGo attempt d i rem).1.length ∧
          (attempt (i + ((tryRequestGo attempt d i rem).1.length - 1)) = .parseFail ∨
            (attempt (i + ((tryRequestGo attempt d i rem).1.length - 1)) = .httpFail ∧
              (tryRequestGo attempt d i rem).1.length = rem)))) := by
  intro rem
  induction rem with
  | zero =>
      intro d i
      simp [tryRequestGo]
  | succ r ih =>
      intro d i
      cases ha : attempt i with
      | parseOk => simp [tryRequestGo, ha]
      | parseFail =>
          refine ⟨?_, ?_, ?_, ?_, ?_⟩ <;> simp [tryRequestGo, ha]
      | httpFail =>
          by_cases hr : r = 0
          · subst hr
            refine ⟨?_, ?_, ?_, ?_, ?_⟩ <;> simp [tryRequestGo, ha]
          · have hrec := ih 1000 (i + 1)
            have hunf : tryRequestGo attempt d i (r + 1) =
                ((d, i) :: (tryRequestGo attempt 1000 (i + 1) r).1,
                 (tryRequestGo attempt 1000 (i + 1) r).2) := by
              simp [tryRequestGo, ha, hr]
            obtain ⟨h1, h2, h3, h4, h5⟩ := hrec
            have hlen : 0 < (tryRequestGo attempt 1000 (i + 1) r).1.length := by
              cases hb : (tryRequestGo attempt 1000 (i + 1) r).2
              · exact ((h5 hb).2 (by omega)).1
              · exact (h4 hb).1
            rw [hunf]
            refine ⟨?_, ?_, ?_, ?_, ?_⟩
            · simp only [List.map_cons, List.length_cons]
              rw [h1, List.range'_succ]
            · simp only [List.map_cons, List.length_cons, Nat.succ_ne_zero, if_false,
                Nat.succ_sub_one]
              rw [h2, if_neg (by omega)]
              obtain ⟨m, hm⟩ : ∃ m, (tryRequestGo attempt 1000 (i + 1) r).1.length = m + 1 :=
                ⟨(tryRequestGo attempt 1000 (i + 1) r).1.length - 1, by omega⟩
              rw [hm]
              simp [List.replicate_succ]
            · simp only [List.length_cons]
              omega
            · intro hb
              obtain ⟨hp, hq, hv⟩ := h4 hb
              refine ⟨by simp, ?_, ?_⟩
              · simp only [List.length_cons, Nat.succ_sub_one]
                have hx : i + (tryRequestGo attempt 1000 (i + 1) r).1.length =
                    (i + 1) + ((tryRequestGo attempt 1000 (i + 1) r).1.length - 1) := by
                  omega
                rw [hx]
                exact hq
              · simp only [List.length_cons, Nat.succ_sub_one]
                intro j hj
                cases j with
                | zero => simpa using ha
                | succ k =>
                    have hx : i + (k + 1) = (i + 1) + k := by omega
                    rw [hx]
                    exact hv k (by omega)
            · intro hb
              obtain ⟨hv, hl⟩ := h5 hb
              obtain ⟨hpos, hlast⟩ := hl (by omega)
              constructor
              · simp only [List.length_cons, Nat.succ_sub_one]
                intro j hj
                cases j with
                | zero => simpa using ha
                | succ k =>
                    have hx : i + (k + 1) = (i + 1) + k := by omega
                    rw [hx]
                    exact hv k (by omega)
              · intro _
                refine ⟨by simp, ?_⟩
                simp only [List.length_cons, Nat.succ_sub_one]
                have hx : i + (tryRequestGo attempt 1000 (i + 1) r).1.length =
                    (i + 1) + ((tryRequestGo attempt 1000 (i + 1) r).1.length - 1) := by
                  omega
                rw [hx]
                rcases hlast with hpf | ⟨hhf, hle⟩
                · exact Or.inl hpf
                · exact Or.inr ⟨hhf, by simp only [List.length_cons] at *; omega⟩

/-- C6 as stated is false of the program: when the first HTTP attempt
succeeds but the piped body makes feedparser emit `error`, the promise
is rejected immediately (`feedparser.on('error', reject)`) — the
fallback fails after ONE attempt, without trying the remaining four
User-Agents. -/
theorem fallback_rotation_counterexample :
    (tryRequest (fun _ => .parseFail)).2 = false ∧
    (tryRequest (fun _ => .parseFail)).1.length = 1 ∧
    (tryRequest (fun _ => .parseFail)).1.length ≠ userAgents.length := by
  refine ⟨rfl, rfl, by decide⟩

/-- C6 amended: the fallback issues its HTTP attempts with the five
User-Agent strings strictly in declared order, waits 1000 ms before
every retry (and only before retries); every attempt before the last
failed at the HTTP level; success on the Nth attempt means exactly N
attempts with the first N−1 HTTP failures; a failed run either ends in
a feedparser error right after its one successful HTTP request — with
no further User-Agents tried — or has exhausted all five User-Agents
with HTTP failures; in particular, when no attempt fails at the parse
stage, the fallback fails only after every User-Agent has been tried. -/
theorem fallback_rotation_amended (attempt : Nat → AttemptOutcome) :
    (tryRequest attempt).1.map (fun p => userAgents.getD p.2 "") =
      userAgents.take (tryRequest attempt).1.length ∧
    (tryRequest attempt).1.map Prod.snd = List.range (tryRequest attempt).1.length ∧
    (tryRequest attempt).1.length ≤ 5 ∧
    ((tryRequest attempt).1.map Prod.fst =
      if (tryRequest attempt).1.length = 0 then []
      else 0 :: List.replicate ((tryRequest attempt).1.length - 1) 1000) ∧
    ((tryRequest attempt).2 = true →
      0 < (tryRequest attempt).1.length ∧
      attempt ((tryRequest attempt).1.length - 1) = .parseOk ∧
      ∀ j < (tryRequest attempt).1.length - 1, attempt j = .httpFail) ∧
    ((tryRequest attempt).2 = false →
      0 < (tryRequest attempt).1.length ∧
      (∀ j < (tryRequest attempt).1.length - 1, attempt j = .httpFail) ∧
      (attempt ((tryRequest attempt).1.length - 1) = .parseFail ∨
        (attempt ((tryRequest attempt).1.length - 1) = .httpFail ∧
          (tryRequest attempt).1.length = 5))) ∧
    ((∀ j, attempt j ≠ .parseFail) → (tryRequest attempt).2 = false →
      (tryRequest attempt).1.length = 5 ∧ ∀ j < 5, attempt j = .httpFail) := by
  have h := tryRequestGo_spec attempt 5 0 0
  have hdef : tryRequest attempt = tryRequestGo attempt 0 0 5 := rfl
  obtain ⟨h1, h2, h3, h4, h5⟩ := h
  have hrange : (tryRequest attempt).1.map Prod.snd =
      List.range (tryRequest attempt).1.length := by
    rw [hdef, h1, List.range_eq_range']
  have hfail : (tryRequest attempt).2 = false →
      0 < (tryRequest attempt).1.length ∧
      (∀ j < (tryRequest attempt).1.length - 1, attempt j = .httpFail) ∧
      (attempt ((tryRequest attempt).1.length - 1) = .parseFail ∨
        (attempt ((tryRequest attempt).1.length - 1) = .httpFail ∧
          (tryRequest attempt).1.length = 5)) := by
    intro hb
    rw [hdef] at hb ⊢
    obtain ⟨hv, hl⟩ := h5 hb
    obtain ⟨hpos, hlast⟩ := hl (by omega)
    refine ⟨hpos, fun j hj => by simpa using hv j hj, ?_⟩
    simpa using hlast
  refine ⟨?_, hrange, by rw [hdef]; exact h3, by rw [hdef]; exact h2, ?_, hfail, ?_⟩
  · have hmm : (tryRequest attempt).1.map (fun p => userAgents.getD p.2 "") =
        ((tryRequest attempt).1.map Prod.snd).map (fun i => userAgents.getD i "") := by
      rw [List.map_map]
      rfl
    rw [hmm, hrange, map_getD_range]
    rw [hdef]
    exact h3
  · intro hb
    rw [hdef] at hb ⊢
    obtain ⟨hp, hq, hv⟩ := h4 hb
    refine ⟨hp, by simpa using hq, fun j hj => by simpa using hv j hj⟩
  · intro hnp hb
    obtain ⟨hpos, hv, hlast⟩ := hfail hb
    rcases hlast with hpf | ⟨hhf, hlen⟩
    · exact absurd hpf (hnp _)
    · refine ⟨hlen, fun j hj => ?_⟩
      by_cases hj' : j < (tryRequest attempt).1.length - 1
      · exact hv j hj'
      · have : j = (tryRequest attempt).1.length - 1 := by omega
        rw [this]
        exact hhf

/-- Witness for the amended C6: the third attempt's request succeeds
and parses; exactly three attempts are made, in order, with 1000 ms
delays before the retries. -/
theorem fallback_rotation_amended_witness :
    0 < (tryRequest (fun i => if i = 2 then .parseOk else .httpFail)).1.length ∧
    (fun i => if i = 2 then AttemptOutcome.parseOk else .httpFail)
        ((tryRequest (fun i => if i = 2 then .parseOk else .httpFail)).1.length - 1) =
      .parseOk ∧
    (tryRequest (fun i => if i = 2 then .parseOk else .httpFail)).1.map Prod.snd =
      List.range (tryRequest (fun i => if i = 2 then .parseOk else .httpFail)).1.length ∧
    (tryRequest (fun i => if i = 2 then .parseOk else .httpFail)).1.length = 3 := by
  have h := fallback_rotation_amended (fun i => if i = 2 then .parseOk else .httpFail)
  have hb := h.2.2.2.2.1 (by decide)
  exact ⟨hb.1, hb.2.1, h.2.1, by decide⟩

/-! ### Infrastructure on the bulk-create loop -/

theorem isDupe_eq_true_iff (c : Candidate) (L G T : List String) :
    isDupe c L G T = true ↔
      (c.link ≠ "" ∧ c.link ∈ L) ∨ (c.guid ≠ "" ∧ c.guid ∈ G) ∨
        (c.title ≠ "" ∧ c.title ∈ T) := by
  simp only [isDupe]
  split_ifs with h1 h2 h3 <;> simp_all

theorem conflictsWith_eq_true_iff (c : Candidate) (f : Nat) (arts : List Article) :
    conflictsWith c f arts = true ↔
      ∃ a ∈ arts, a.link = c.link ∨ (c.guid ≠ "" ∧ a.feedId = f ∧ a.guid = c.guid) := by
  simp [conflictsWith, List.any_eq_true, and_assoc]

theorem bulkStep_of_dupe {isUrl : String → Bool} {f : Nat} {σ : DState} {c : Candidate}
    (hd : isDupe c σ.links σ.guids σ.titles = true) : bulkStep isUrl f σ c = σ := by
  simp [bulkStep, hd]

theorem bulkStep_of_conflict {isUrl : String → Bool} {f : Nat} {σ : DState} {c : Candidate}
    (hd : isDupe c σ.links σ.guids σ.titles = false)
    (hc : conflictsWith c f σ.store = true) : bulkStep isUrl f σ c = σ := by
  simp [bulkStep, insertFails, hd, hc]

theorem bulkStep_of_skip {isUrl : String → Bool} {f : Nat} {σ : DState} {c : Candidate}
    (hd : isDupe c σ.links σ.guids σ.titles = false)
    (hs : insertFails isUrl c f σ.store = true) : bulkStep isUrl f σ c = σ := by
  simp [bulkStep, hd, hs]

theorem bulkStep_of_accept {isUrl : String → Bool} {f : Nat} {σ : DState} {c : Candidate}
    (hd : isDupe c σ.links σ.guids σ.titles = false)
    (hc : insertFails isUrl c f σ.store = false) :
    bulkStep isUrl f σ c =
      { links := if c.link != "" then c.link :: σ.links else σ.links
        guids := if c.guid != "" then c.guid :: σ.guids else σ.guids
        titles := if c.title != "" then c.title :: σ.titles else σ.titles
        store := σ.store ++ [mkArticle c f σ.nextId]
        nextId := σ.nextId + 1
        out := σ.out ++ [mkArticle c f σ.nextId] } := by
  simp [bulkStep, hd, hc]

theorem bulkStep_mono (isUrl : String → Bool) (f : Nat) (σ : DState) (c : Candidate) :
    (∀ x ∈ σ.links, x ∈ (bulkStep isUrl f σ c).links) ∧
    (∀ x ∈ σ.guids, x ∈ (bulkStep isUrl f σ c).guids) ∧
    (∀ x ∈ σ.titles, x ∈ (bulkStep isUrl f σ c).titles) ∧
    (∀ a ∈ σ.store, a ∈ (bulkStep isUrl f σ c).store) := by
  unfold bulkStep
  split_ifs <;> refine ⟨?_, ?_, ?_, ?_⟩ <;> intro x hx <;> simp [hx]

theorem foldl_bulkStep_mono (isUrl : String → Bool) (f : Nat) (cs : List Candidate) :
    ∀ σ : DState,
    (∀ x ∈ σ.links, x ∈ (cs.foldl (bulkStep isUrl f) σ).links) ∧
    (∀ x ∈ σ.guids, x ∈ (cs.foldl (bulkStep isUrl f) σ).guids) ∧
    (∀ x ∈ σ.titles, x ∈ (cs.foldl (bulkStep isUrl f) σ).titles) ∧
    (∀ a ∈ σ.store, a ∈ (cs.foldl (bulkStep isUrl f) σ).store) := by
  induction cs with
  | nil => intro σ; simp
  | cons c cs ih =>
      intro σ
      obtain ⟨l1, g1, t1, s1⟩ := bulkStep_mono isUrl f σ c
      obtain ⟨l2, g2, t2, s2⟩ := ih (bulkStep isUrl f σ c)
      simp only [List.foldl_cons]
      exact ⟨fun x hx => l2 x (l1 x hx), fun x hx => g2 x (g1 x hx),
        fun x hx => t2 x (t1 x hx), fun a ha => s2 a (s1 a ha)⟩

/-- Invariant: every non-empty link/guid/title of a feed-`f` row of the
loop's store is present in the corresponding lookup set. -/
def coversFeed (f : Nat) (σ : DState) : Prop :=
  ∀ a ∈ σ.store, a.feedId = f →
    (a.link ≠ "" → a.link ∈ σ.links) ∧ (a.guid ≠ "" → a.guid ∈ σ.guids) ∧
      (a.title ≠ "" → a.title ∈ σ.titles)

/-- Invariant: every entry of a lookup set is the non-empty
link/guid/title of some feed-`f` row of the loop's store. -/
def setsFromFeed (f : Nat) (σ : DState) : Prop :=
  (∀ x ∈ σ.links, x ≠ "" ∧ ∃ a ∈ σ.store, a.feedId = f ∧ a.link = x) ∧
  (∀ x ∈ σ.guids, x ≠ "" ∧ ∃ a ∈ σ.store, a.feedId = f ∧ a.guid = x) ∧
  (∀ x ∈ σ.titles, x ≠ "" ∧ ∃ a ∈ σ.store, a.feedId = f ∧ a.title = x)

theorem setsFromFeed_init (f : Nat) (st : Store) : setsFromFeed f (initDState f st) := by
  refine ⟨?_, ?_, ?_⟩ <;>
    · intro x hx
      simp only [initDState, linksOfFeed, guidsOfFeed, titlesOfFeed, List.mem_filter,
        List.mem_map] at hx
      obtain ⟨⟨a, ha, rfl⟩, hne⟩ := hx
      simp only [List.mem_filter, beq_iff_eq] at ha
      exact ⟨by simpa using hne, a, ha.1, ha.2, rfl⟩

theorem coversFeed_step (isUrl : String → Bool) (f : Nat) (σ : DState) (c : Candidate)
    (h : coversFeed f σ) : coversFeed f (bulkStep isUrl f σ c) := by
  cases hd : isDupe c σ.links σ.guids σ.titles with
  | true => rw [bulkStep_of_dupe hd]; exact h
  | false =>
    cases hc : insertFails isUrl c f σ.store with
    | true => rw [bulkStep_of_skip hd hc]; exact h
    | false =>
      rw [bulkStep_of_accept hd hc]
      intro a ha hf
      simp only [List.mem_append, List.mem_singleton] at ha
      rcases ha with ha | rfl
      · obtain ⟨hl, hg, ht⟩ := h a ha hf
        refine ⟨fun hx => ?_, fun hx => ?_, fun hx => ?_⟩
        · dsimp only
          split <;> simp [hl hx]
        · dsimp only
          split <;> simp [hg hx]
        · dsimp only
          split <;> simp [ht hx]
      · refine ⟨fun hx => ?_, fun hx => ?_, fun hx => ?_⟩ <;>
          · dsimp only [mkArticle] at hx ⊢
            rw [if_pos (by simpa using hx)]
            simp

theorem setsFromFeed_step (isUrl : String → Bool) (f : Nat) (σ : DState) (c : Candidate)
    (h : setsFromFeed f σ) : setsFromFeed f (bulkStep isUrl f σ c) := by
  obtain ⟨hL, hG, hT⟩ := h
  cases hd : isDupe c σ.links σ.guids σ.titles with
  | true => rw [bulkStep_of_dupe hd]; exact ⟨hL, hG, hT⟩
  | false =>
  cases hc : insertFails isUrl c f σ.store with
  | true => rw [bulkStep_of_skip hd hc]; exact ⟨hL, hG, hT⟩
  | false =>
  rw [bulkStep_of_accept hd hc]
  refine ⟨?_, ?_, ?_⟩
  · intro x hx
    dsimp only at hx
    by_cases hcl : c.link != ""
    · rw [if_pos hcl] at hx
      rcases List.mem_cons.mp hx with rfl | hx
      · exact ⟨by simpa using hcl, mkArticle c f σ.nextId, by simp, rfl, rfl⟩
      · obtain ⟨hne, a, ha, hfa, hval⟩ := hL x hx
        exact ⟨hne, a, by simp [ha], hfa, hval⟩
    · rw [if_neg hcl] at hx
      obtain ⟨hne, a, ha, hfa, hval⟩ := hL x hx
      exact ⟨hne, a, by simp [ha], hfa, hval⟩
  · intro x hx
    dsimp only at hx
    by_cases hcg : c.guid != ""
    · rw [if_pos hcg] at hx
      rcases List.mem_cons.mp hx with rfl | hx
      · exact ⟨by simpa using hcg, mkArticle c f σ.nextId, by simp, rfl, rfl⟩
      · obtain ⟨hne, a, ha, hfa, hval⟩ := hG x hx
        exact ⟨hne, a, by simp [ha], hfa, hval⟩
    · rw [if_neg hcg] at hx
      obtain ⟨hne, a, ha, hfa, hval⟩ := hG x hx
      exact ⟨hne, a, by simp [ha], hfa, hval⟩
  · intro x hx
    dsimp only at hx
    by_cases hct : c.title != ""
    · rw [if_pos hct] at hx
      rcases List.mem_cons.mp hx with rfl | hx
      · exact ⟨by simpa using hct, mkArticle c f σ.nextId, by simp, rfl, rfl⟩
      · obtain ⟨hne, a, ha, hfa, hval⟩ := hT x hx
        exact ⟨hne, a, by simp [ha], hfa, hval⟩
    · rw [if_neg hct] at hx
      obtain ⟨hne, a, ha, hfa, hval⟩ := hT x hx
      exact ⟨hne, a, by simp [ha], hfa, hval⟩

theorem coversFeed_foldl (isUrl : String → Bool) (f : Nat) (cs : List Candidate) :
    ∀ σ : DState,
    coversFeed f σ → coversFeed f (cs.foldl (bulkStep isUrl f) σ) := by
  induction cs with
  | nil => intro σ h; simpa using h
  | cons c cs ih =>
      intro σ h
      simp only [List.foldl_cons]
      exact ih _ (coversFeed_step isUrl f σ c h)

theorem setsFromFeed_foldl (isUrl : String → Bool) (f : Nat) (cs : List Candidate) :
    ∀ σ : DState,
    setsFromFeed f σ → setsFromFeed f (cs.foldl (bulkStep isUrl f) σ) := by
  induction cs with
  | nil => intro σ h; simpa using h
  | cons c cs ih =>
      intro σ h
      simp only [List.foldl_cons]
      exact ih _ (setsFromFeed_step isUrl f σ c h)

/-- A candidate is rejected at a loop state: the in-memory filter flags
it as a duplicate, or its insert throws (validation failure or unique
constraint) and is swallowed. -/
def rejectedAt (isUrl : String → Bool) (f : Nat) (c : Candidate) (σ : DState) : Prop :=
  isDupe c σ.links σ.guids σ.titles = true ∨ insertFails isUrl c f σ.store = true

theorem isDupe_mono {c : Candidate} {L G T L' G' T' : List String}
    (hL : ∀ x ∈ L, x ∈ L') (hG : ∀ x ∈ G, x ∈ G') (hT : ∀ x ∈ T, x ∈ T')
    (h : isDupe c L G T = true) : isDupe c L' G' T' = true := by
  rw [isDupe_eq_true_iff] at h ⊢
  rcases h with ⟨h1, h2⟩ | ⟨h1, h2⟩ | ⟨h1, h2⟩
  exacts [Or.inl ⟨h1, hL _ h2⟩, Or.inr (Or.inl ⟨h1, hG _ h2⟩),
    Or.inr (Or.inr ⟨h1, hT _ h2⟩)]

theorem conflictsWith_mono {c : Candidate} {f : Nat} {arts arts' : List Article}
    (h : ∀ a ∈ arts, a ∈ arts') (hc : conflictsWith c f arts = true) :
    conflictsWith c f arts' = true := by
  rw [conflictsWith_eq_true_iff] at hc ⊢
  obtain ⟨a, ha, hp⟩ := hc
  exact ⟨a, h a ha, hp⟩

theorem isDupe_key_congr {c c' : Candidate} (hl : c.link = c'.link)
    (hg : c.guid = c'.guid) (ht : c.title = c'.title) (L G T : List String) :
    isDupe c L G T = isDupe c' L G T := by
  simp [isDupe, hl, hg, ht]

theorem conflictsWith_key_congr {c c' : Candidate} (hl : c.link = c'.link)
    (hg : c.guid = c'.guid) (f : Nat) (arts : List Article) :
    conflictsWith c f arts = conflictsWith c' f arts := by
  simp [conflictsWith, hl, hg]

theorem insertFails_mono {isUrl : String → Bool} {c : Candidate} {f : Nat}
    {arts arts' : List Article} (h : ∀ a ∈ arts, a ∈ arts')
    (hs : insertFails isUrl c f arts = true) : insertFails isUrl c f arts' = true := by
  cases hv : validationFails isUrl c with
  | true => simp [insertFails, hv]
  | false =>
      rw [insertFails, hv, Bool.false_or] at hs
      simp [insertFails, conflictsWith_mono h hs]

theorem insertFails_key_congr {c c' : Candidate} (hl : c.link = c'.link)
    (hg : c.guid = c'.guid) (ht : c.title = c'.title) (isUrl : String → Bool)
    (f : Nat) (arts : List Article) :
    insertFails isUrl c f arts = insertFails isUrl c' f arts := by
  simp [insertFails, validationFails, conflictsWith, hl, hg, ht]

/-- Every processed candidate is rejected at the loop's final state. -/
theorem foldl_rejectedAt (isUrl : String → Bool) (f : Nat) (cs : List Candidate) :
    ∀ (σ : DState), ∀ c ∈ cs,
    rejectedAt isUrl f c (cs.foldl (bulkStep isUrl f) σ) := by
  induction cs with
  | nil => intro σ c hc; simp at hc
  | cons c0 cs ih =>
      intro σ c hc
      simp only [List.foldl_cons]
      rcases List.mem_cons.mp hc with rfl | hc
      · have hstep : rejectedAt isUrl f c (bulkStep isUrl f σ c) := by
          cases hd : isDupe c σ.links σ.guids σ.titles with
          | true =>
              rw [bulkStep_of_dupe hd]
              exact Or.inl hd
          | false =>
              cases hcf : insertFails isUrl c f σ.store with
              | true =>
                  rw [bulkStep_of_skip hd hcf]
                  exact Or.inr hcf
              | false =>
                  rw [bulkStep_of_accept hd hcf]
                  refine Or.inr ?_
                  have hconf : conflictsWith c f
                      (σ.store ++ [mkArticle c f σ.nextId]) = true := by
                    rw [conflictsWith_eq_true_iff]
                    exact ⟨mkArticle c f σ.nextId, by simp, Or.inl rfl⟩
                  simp [insertFails, hconf]
        obtain ⟨l2, g2, t2, s2⟩ := foldl_bulkStep_mono isUrl f cs (bulkStep isUrl f σ c)
        rcases hstep with hd | hcf
        · exact Or.inl (isDupe_mono l2 g2 t2 hd)
        · exact Or.inr (insertFails_mono s2 hcf)
      · exact ih (bulkStep isUrl f σ c0) c hc

/-- When every incoming candidate is already rejected, the loop is a
no-op. -/
theorem foldl_noop (isUrl : String → Bool) (f : Nat) (cs : List Candidate) :
    ∀ σ : DState,
    (∀ c ∈ cs, rejectedAt isUrl f c σ) → cs.foldl (bulkStep isUrl f) σ = σ := by
  induction cs with
  | nil => intro σ _; rfl
  | cons c cs ih =>
      intro σ h
      have hstep : bulkStep isUrl f σ c = σ := by
        rcases h c (List.mem_cons_self c cs) with hd | hcf
        · exact bulkStep_of_dupe hd
        · cases hd : isDupe c σ.links σ.guids σ.titles with
          | true => exact bulkStep_of_dupe hd
          | false => exact bulkStep_of_skip hd hcf
      simp only [List.foldl_cons, hstep]
      exact ih σ (fun c' hc' => h c' (List.mem_cons_of_mem c hc'))

/-- `setsFromFeed` means the loop sets are contained in the lookup sets
rebuilt from the loop's own store. -/
theorem subsets_of_setsFromFeed {f : Nat} {σ : DState} (h : setsFromFeed f σ) :
    (∀ x ∈ σ.links, x ∈ linksOfFeed σ.store f) ∧
    (∀ x ∈ σ.guids, x ∈ guidsOfFeed σ.store f) ∧
    (∀ x ∈ σ.titles, x ∈ titlesOfFeed σ.store f) := by
  obtain ⟨hL, hG, hT⟩ := h
  refine ⟨?_, ?_, ?_⟩
  · intro x hx
    obtain ⟨hne, a, ha, hf, rfl⟩ := hL x hx
    simp only [linksOfFeed, List.mem_filter, List.mem_map]
    exact ⟨⟨a, by simp [List.mem_filter, ha, hf], rfl⟩, by simpa using hne⟩
  · intro x hx
    obtain ⟨hne, a, ha, hf, rfl⟩ := hG x hx
    simp only [guidsOfFeed, List.mem_filter, List.mem_map]
    exact ⟨⟨a, by simp [List.mem_filter, ha, hf], rfl⟩, by simpa using hne⟩
  · intro x hx
    obtain ⟨hne, a, ha, hf, rfl⟩ := hT x hx
    simp only [titlesOfFeed, List.mem_filter, List.mem_map]
    exact ⟨⟨a, by simp [List.mem_filter, ha, hf], rfl⟩, by simpa using hne⟩

/-- Bulk-level idempotence: running the bulk insert again, with
candidates carrying the same link/guid/title keys, inserts nothing and
leaves the table unchanged. -/
theorem bulk_idempotent (isUrl : String → Bool) (f : Nat) (cs cs' : List Candidate)
    (st : Store)
    (hkeys : ∀ c' ∈ cs', ∃ c ∈ cs,
      c.link = c'.link ∧ c.guid = c'.guid ∧ c.title = c'.title) :
    bulkCreateSafeWithDupeCheck isUrl cs' f (bulkCreateSafeWithDupeCheck isUrl cs f st).2 =
      ([], (bulkCreateSafeWithDupeCheck isUrl cs f st).2) := by
  have hsets : setsFromFeed f (cs.foldl (bulkStep isUrl f) (initDState f st)) :=
    setsFromFeed_foldl isUrl f cs _ (setsFromFeed_init f st)
  obtain ⟨hLsub, hGsub, hTsub⟩ := subsets_of_setsFromFeed hsets
  have hrej : ∀ c' ∈ cs',
      rejectedAt isUrl f c'
        (initDState f (bulkCreateSafeWithDupeCheck isUrl cs f st).2) := by
    intro c' hc'
    obtain ⟨c, hc, hl, hg, ht⟩ := hkeys c' hc'
    have h1 := foldl_rejectedAt isUrl f cs (initDState f st) c hc
    rcases h1 with hd | hcf
    · refine Or.inl ?_
      rw [← isDupe_key_congr hl hg ht]
      exact isDupe_mono hLsub hGsub hTsub hd
    · refine Or.inr ?_
      rw [← insertFails_key_congr hl hg ht]
      exact hcf
  have hnoop := foldl_noop isUrl f cs' _ hrej
  show (let σ := cs'.foldl (bulkStep isUrl f) (initDState f (bulkCreateSafeWithDupeCheck isUrl cs f st).2)
        (σ.out, ({ articles := σ.store, nextId := σ.nextId } : Store))) = _
  rw [hnoop]
  rfl

/-! ### C1 — idempotence of a feed fetch -/

/-- The validity verdict of a normalized item does not depend on the
clock (only `pubDate` does). -/
theorem validArticle_now_indep (now now' : Int) (it : Item) :
    validArticle (normalizeItem now' it) = validArticle (normalizeItem now it) := rfl

theorem validCandidates_length (now now' : Int) (items : List Item) :
    (validCandidates now items).length = (validCandidates now' items).length := by
  induction items with
  | nil => rfl
  | cons it items ih =>
      simp only [validCandidates, List.map_cons, List.filter_cons] at ih ⊢
      rw [validArticle_now_indep now now']
      cases hv2 : validArticle (normalizeItem now it) <;> simp [hv2, ih]

/-- Every valid candidate of the second parse has a same-keyed valid
candidate in the first parse (the two parses see the same items; only
default `pubDate`s can differ). -/
theorem validCandidates_keys (now now' : Int) (items : List Item) :
    ∀ c' ∈ validCandidates now' items, ∃ c ∈ validCandidates now items,
      c.link = c'.link ∧ c.guid = c'.guid ∧ c.title = c'.title := by
  induction items with
  | nil => intro c' hc'; simp [validCandidates] at hc'
  | cons it items ih =>
      intro c' hc'
      simp only [validCandidates, List.map_cons, List.filter_cons] at hc' ⊢
      rw [validArticle_now_indep now now'] at hc'
      cases hv2 : validArticle (normalizeItem now it) with
      | false =>
          rw [hv2] at hc'
          simp only [Bool.false_eq_true, if_false] at hc'
          simp only [hv2, Bool.false_eq_true, if_false]
          exact ih c' hc'
      | true =>
          rw [hv2] at hc'
          simp only [if_true] at hc'
          simp only [hv2, if_true]
          rcases List.mem_cons.mp hc' with rfl | hc'
          · exact ⟨normalizeItem now it, List.mem_cons_self _ _, rfl, rfl, rfl⟩
          · obtain ⟨c, hcm, hks⟩ := ih c' hc'
            exact ⟨c, List.mem_cons_of_mem _ hcm, hks⟩

/-- The success branch of `fetchFeedArticles` with a non-empty valid
candidate list, spelled out. -/
theorem fetchFeedArticles_ok_nonempty {isUrl : String → Bool} {now : Int}
    {feed : FeedRec} {items : List Item} {st : Store} (hne : items.isEmpty = false)
    (hv : (validCandidates now items).isEmpty = false) :
    fetchFeedArticles isUrl now feed (.ok items) st =
      (.ok (bulkCreateSafeWithDupeCheck isUrl (validCandidates now items) feed.id st).1.length,
       { feed with lastFetched := some now, errorCount := 0 },
       (bulkCreateSafeWithDupeCheck isUrl (validCandidates now items) feed.id st).2) := by
  simp [fetchFeedArticles, hne, hv]

/-- C1: fetching the same remote items twice in a row inserts articles
at most on the first run; the second run returns `insertedCount = 0`
(the bulk insert returns an empty list) and leaves the article table
unchanged. -/
theorem fetch_idempotent (isUrl : String → Bool) (now1 now2 : Int) (feed : FeedRec)
    (items : List Item) (st : Store) :
    (fetchFeedArticles isUrl now2 (fetchFeedArticles isUrl now1 feed (.ok items) st).2.1 (.ok items)
       (fetchFeedArticles isUrl now1 feed (.ok items) st).2.2).1 = .ok 0 ∧
    (fetchFeedArticles isUrl now2 (fetchFeedArticles isUrl now1 feed (.ok items) st).2.1 (.ok items)
       (fetchFeedArticles isUrl now1 feed (.ok items) st).2.2).2.2 =
      (fetchFeedArticles isUrl now1 feed (.ok items) st).2.2 := by
  by_cases hne : items.isEmpty
  · simp [fetchFeedArticles, hne]
  · simp only [Bool.not_eq_true] at hne
    by_cases hv1 : (validCandidates now1 items).isEmpty
    · have hv1' : validCandidates now1 items = [] := by simpa using hv1
      have hv2 : (validCandidates now2 items).isEmpty = true := by
        have hlen : (validCandidates now2 items).length = 0 := by
          rw [← validCandidates_length now1 now2 items, hv1']
          rfl
        simpa using List.length_eq_zero.mp hlen
      simp [fetchFeedArticles, hne, hv1, hv2]
    · simp only [Bool.not_eq_true] at hv1
      have hv2 : (validCandidates now2 items).isEmpty = false := by
        cases h2 : (validCandidates now2 items).isEmpty
        · rfl
        · exfalso
          have h2' : validCandidates now2 items = [] := by simpa using h2
          have hlen : (validCandidates now1 items).length = 0 := by
            rw [validCandidates_length now1 now2 items, h2']
            rfl
          have := List.length_eq_zero.mp hlen
          rw [this] at hv1
          simp at hv1
      rw [fetchFeedArticles_ok_nonempty hne hv1]
      rw [fetchFeedArticles_ok_nonempty hne hv2]
      have hbulk := bulk_idempotent isUrl feed.id (validCandidates now1 items)
        (validCandidates now2 items) st (validCandidates_keys now1 now2 items)
      have h1 : (bulkCreateSafeWithDupeCheck isUrl (validCandidates now2 items) feed.id
          (bulkCreateSafeWithDupeCheck isUrl (validCandidates now1 items) feed.id st).2).1 = [] := by
        rw [hbulk]
      have h2 : (bulkCreateSafeWithDupeCheck isUrl (validCandidates now2 items) feed.id
          (bulkCreateSafeWithDupeCheck isUrl (validCandidates now1 items) feed.id st).2).2 =
          (bulkCreateSafeWithDupeCheck isUrl (validCandidates now1 items) feed.id st).2 := by
        rw [hbulk]
      exact ⟨by simp [h1], by simp [h2]⟩

/-! ### C2 — layered duplicate filtering matches the spec's algorithm -/

theorem candidateOf_mkArticle (c : Candidate) (f i : Nat) :
    candidateOf (mkArticle c f i) = c := rfl

theorem fetchAllLoop_spec (isUrl : String → Bool) (now : Int) :
    ∀ (jobs : List FeedJob) (st : Store),
    (fetchAllLoop isUrl now jobs st).totalFetched =
      ((runResults isUrl now jobs st).map okCount).sum ∧
    (fetchAllLoop isUrl now jobs st).totalErrors =
      (runResults isUrl now jobs st).countP isErrResult ∧
    (fetchAllLoop isUrl now jobs st).updatedFeeds.length = jobs.length := by
  intro jobs
  induction jobs with
  | nil => intro st; simp [fetchAllLoop, runResults]
  | cons j rest ih =>
      intro st
      obtain ⟨h1, h2, h3⟩ := ih (fetchFeedArticles isUrl now j.feed j.parsed st).2.2
      simp only [fetchAllLoop, runResults]
      cases hr : (fetchFeedArticles isUrl now j.feed j.parsed st).1 with
      | ok n =>
          simp [hr, okCount, isErrResult, h1, h2, h3, List.countP_cons]
      | error e =>
          simp [hr, okCount, isErrResult, h1, h2, h3, List.countP_cons]

/-- C3: `fetchAllFeeds` processes every active feed sequentially;
`feedsProcessed` is the number of active feeds, `totalFetched` the sum
of the successful runs' inserted counts, `totalErrors` the number of
feeds that threw; and in the two-feed scenario where A throws and B
succeeds with a non-empty valid batch, exactly one error is reported,
A's errorCount is incremented and B's is reset to 0. -/
theorem fetchAll_error_isolation (isUrl : String → Bool) (now : Int)
    (jobs : List FeedJob) (st : Store) :
    ((fetchAllFeeds isUrl now jobs st).1.feedsProcessed =
        (jobs.filter (fun j => j.feed.isActive)).length ∧
      (fetchAllFeeds isUrl now jobs st).1.totalFetched =
        ((runResults isUrl now (jobs.filter (fun j => j.feed.isActive)) st).map okCount).sum ∧
      (fetchAllFeeds isUrl now jobs st).1.totalErrors =
        (runResults isUrl now (jobs.filter (fun j => j.feed.isActive)) st).countP isErrResult ∧
      (fetchAllFeeds isUrl now jobs st).2.1.length =
        (jobs.filter (fun j => j.feed.isActive)).length) ∧
    (∀ (A B : FeedRec) (e : String) (itemsB : List Item) (st' : Store),
      A.isActive = true → B.isActive = true →
      (validCandidates now itemsB).isEmpty = false →
      (fetchAllFeeds isUrl now [⟨A, .error e⟩, ⟨B, .ok itemsB⟩] st').1.totalErrors = 1 ∧
      (fetchAllFeeds isUrl now [⟨A, .error e⟩, ⟨B, .ok itemsB⟩] st').1.feedsProcessed = 2 ∧
      (fetchAllFeeds isUrl now [⟨A, .error e⟩, ⟨B, .ok itemsB⟩] st').2.1 =
        [{ A with lastFetched := some now, errorCount := A.errorCount + 1 },
         { B with lastFetched := some now, errorCount := 0 }] ∧
      (fetchAllFeeds isUrl now [⟨A, .error e⟩, ⟨B, .ok itemsB⟩] st').1.totalFetched =
        (bulkCreateSafeWithDupeCheck isUrl (validCandidates now itemsB) B.id st').1.length) := by
  constructor
  · obtain ⟨h1, h2, h3⟩ :=
      fetchAllLoop_spec isUrl now (jobs.filter (fun j => j.feed.isActive)) st
    exact ⟨rfl, h1, h2, h3⟩
  · intro A B e itemsB st' hA hB hv
    have hne : itemsB.isEmpty = false := by
      refine items_ne_nil_of_valid now (fun h0 => ?_)
      rw [h0] at hv
      simp at hv
    have hok := @fetchFeedArticles_ok_nonempty isUrl now B itemsB st' hne hv
    have herr : fetchFeedArticles isUrl now A (.error e) st' =
        (.error ("Failed to fetch articles for feed \"" ++ A.title ++ "\": " ++ e),
         { A with lastFetched := some now, errorCount := A.errorCount + 1 }, st') := rfl
    refine ⟨?_, ?_, ?_, ?_⟩ <;>
      simp [fetchAllFeeds, fetchAllLoop, hA, hB, herr, hok]

/-- The failing feed of the witness scenario. -/
def w3A : FeedRec := { id := 11, errorCount := 2 }

/-- The succeeding feed of the witness scenario. -/
def w3B : FeedRec := { id := 12 }

/-- Witness for C3: feed A throws, feed B inserts one article; one
error, A.errorCount 2→3, B.errorCount reset to 0. -/
theorem fetchAll_error_isolation_witness :
    (fetchAllFeeds isUrlW 5 [⟨w3A, .error "boom"⟩, ⟨w3B, .ok [wItem]⟩] wStore).1.totalErrors = 1 ∧
    (fetchAllFeeds isUrlW 5 [⟨w3A, .error "boom"⟩, ⟨w3B, .ok [wItem]⟩] wStore).2.1 =
      [{ w3A with lastFetched := some 5, errorCount := 3 },
       { w3B with lastFetched := some 5, errorCount := 0 }] ∧
    (fetchAllFeeds isUrlW 5 [⟨w3A, .error "boom"⟩, ⟨w3B, .ok [wItem]⟩] wStore).1.totalFetched = 1 := by
  have h := (fetchAll_error_isolation isUrlW 5 [] wStore).2 w3A w3B "boom" [wItem] wStore
    rfl rfl (by decide)
  exact ⟨h.1, h.2.2.1, h.2.2.2.trans (by decide)⟩

/-! ### C5 — retention pruning -/

theorem mem_insertDesc (a x : Article) : ∀ l : List Article,
    (x ∈ insertDesc a l ↔ x = a ∨ x ∈ l) := by
  intro l
  induction l with
  | nil => simp [insertDesc]
  | cons b l ih =>
      simp only [insertDesc]
      split
      · simp only [List.mem_cons, ih]
        tauto
      · simp [List.mem_cons]

theorem mem_sortDesc (x : Article) (l : List Article) :
    x ∈ sortDesc l ↔ x ∈ l := by
  induction l with
  | nil => simp [sortDesc]
  | cons b l ih =>
      simp only [sortDesc] at ih ⊢
      rw [List.foldr_cons, mem_insertDesc, ih, List.mem_cons]

theorem eq_of_mem_of_nodup_ids : ∀ (l : List Article),
    (l.map (fun a => a.id)).Nodup →
    ∀ {a b : Article}, a ∈ l → b ∈ l → a.id = b.id → a = b := by
  intro l
  induction l with
  | nil => intro _ a b ha; cases ha
  | cons x l ih =>
      intro hn a b ha hb hid
      simp only [List.map_cons, List.nodup_cons] at hn
      rcases List.mem_cons.mp ha with ha' | ha' <;> rcases List.mem_cons.mp hb with hb' | hb'
      · rw [ha', hb']
      · exfalso
        apply hn.1
        have hmem : b.id ∈ l.map (fun a => a.id) := List.mem_map_of_mem (fun a => a.id) hb'
        rw [ha'] at hid
        rwa [← hid] at hmem
      · exfalso
        apply hn.1
        have hmem : a.id ∈ l.map (fun a => a.id) := List.mem_map_of_mem (fun a => a.id) ha'
        rw [hb'] at hid
        rwa [hid] at hmem
      · exact ih hn.2 ha' hb' hid

theorem filter_length_split (p : Article → Bool) (l : List Article) :
    (l.filter p).length + (l.filter (fun a => !(p a))).length = l.length := by
  induction l with
  | nil => rfl
  | cons x l ih => cases h : p x <;> simp [List.filter_cons, h] <;> omega

/-- The claim's per-feed cap condition: `a` is ranked beyond `cap` when
its feed's rows are ordered by `pubDate` descending. -/
def beyondCap (arts : List Article) (cap : Nat) (a : Article) : Prop :=
  a ∈ (sortDesc (articlesOfFeed arts a.feedId)).drop cap

instance (arts : List Article) (cap : Nat) (a : Article) :
    Decidable (beyondCap arts cap a) := by
  unfold beyondCap
  infer_instance

/-- The id list assembled by `cleanOldArticles` names exactly the
articles that are too old or beyond the per-feed cap. -/
theorem cleanIds_char (now daysToKeep : Int) (cap : Nat) (st : Store)
    (hids : (st.articles.map (fun a => a.id)).Nodup) :
    ∀ a ∈ st.articles,
      (((st.articles.filter (fun b => b.pubDate < now - daysToKeep)).map
          (fun b => b.id) ++ excessIds st.articles cap).contains a.id = true ↔
        (a.pubDate < now - daysToKeep ∨ beyondCap st.articles cap a)) := by
  intro a ha
  rw [List.elem_iff, List.mem_append]
  constructor
  · rintro (hid | hid)
    · obtain ⟨b, hb, hbid⟩ := List.mem_map.mp hid
      obtain ⟨hbmem, hbold⟩ := List.mem_filter.mp hb
      have hba : b = a := eq_of_mem_of_nodup_ids st.articles hids hbmem ha hbid
      subst hba
      exact Or.inl (by simpa using hbold)
    · obtain ⟨f, hf, hx⟩ := List.mem_flatMap.mp hid
      obtain ⟨b, hb, hbid⟩ := List.mem_map.mp hx
      have hbs : b ∈ sortDesc (articlesOfFeed st.articles f) := List.mem_of_mem_drop hb
      have hbl : b ∈ articlesOfFeed st.articles f := (mem_sortDesc b _).mp hbs
      obtain ⟨hbmem, hbf⟩ := List.mem_filter.mp hbl
      have hba : b = a := eq_of_mem_of_nodup_ids st.articles hids hbmem ha hbid
      subst hba
      have hfb : b.feedId = f := by simpa using hbf
      refine Or.inr ?_
      unfold beyondCap
      rw [hfb]
      exact hb
  · rintro (hold | hbc)
    · refine Or.inl (List.mem_map.mpr ⟨a, ?_, rfl⟩)
      rw [List.mem_filter]
      exact ⟨ha, by simpa using hold⟩
    · refine Or.inr ?_
      rw [excessIds, List.mem_flatMap]
      refine ⟨a.feedId, ?_, List.mem_map_of_mem (fun b => b.id) hbc⟩
      exact List.mem_dedup.mpr (List.mem_map_of_mem (fun b => b.feedId) ha)

/-- C5: `cleanOldArticles` deletes exactly the union of the too-old
articles and each feed's beyond-cap articles; an article matching both
is deleted once, nothing within the window and under the cap is
deleted, and the returned count is the number of articles deleted. -/
theorem cleanOldArticles_correct (now daysToKeep : Int) (cap : Nat) (st : Store)
    (hids : (st.articles.map (fun a => a.id)).Nodup) :
    (∀ a ∈ st.articles,
      (a ∈ (cleanOldArticles now daysToKeep cap st).2.articles ↔
        ¬(a.pubDate < now - daysToKeep ∨ beyondCap st.articles cap a))) ∧
    (∀ a ∈ (cleanOldArticles now daysToKeep cap st).2.articles, a ∈ st.articles) ∧
    (cleanOldArticles now daysToKeep cap st).1 =
      (st.articles.filter (fun a =>
        decide (a.pubDate < now - daysToKeep) ||
          decide (beyondCap st.articles cap a))).length ∧
    (cleanOldArticles now daysToKeep cap st).1 +
      (cleanOldArticles now daysToKeep cap st).2.articles.length =
        st.articles.length := by
  have hchar := cleanIds_char now daysToKeep cap st hids
  have hcong : ∀ a ∈ st.articles,
      (((st.articles.filter (fun b => b.pubDate < now - daysToKeep)).map
          (fun b => b.id) ++ excessIds st.articles cap).contains a.id) =
        (decide (a.pubDate < now - daysToKeep) ||
          decide (beyondCap st.articles cap a)) := by
    intro a ha
    rw [Bool.eq_iff_iff, hchar a ha]
    simp
  by_cases hempty : (((st.articles.filter
      (fun b => b.pubDate < now - daysToKeep)).map (fun b => b.id) ++
        excessIds st.articles cap)).isEmpty
  · have hres : cleanOldArticles now daysToKeep cap st = (0, st) := by
      simp only [cleanOldArticles]
      rw [if_pos hempty]
    have hnil : ((st.articles.filter (fun b => b.pubDate < now - daysToKeep)).map
        (fun b => b.id) ++ excessIds st.articles cap) = [] := by
      simpa using hempty
    have hnone : ∀ a ∈ st.articles,
        ¬(a.pubDate < now - daysToKeep ∨ beyondCap st.articles cap a) := by
      intro a ha hcond
      have := (hchar a ha).mpr hcond
      rw [hnil] at this
      simp at this
    rw [hres]
    refine ⟨fun a ha => ?_, fun a ha => ha, ?_, by simp⟩
    · simp [ha, hnone a ha]
    · have : (st.articles.filter (fun a =>
          decide (a.pubDate < now - daysToKeep) ||
            decide (beyondCap st.articles cap a))) = [] := by
        rw [List.filter_eq_nil_iff]
        intro a ha
        simpa using hnone a ha
      simp [this]
  · have hres : cleanOldArticles now daysToKeep cap st =
        (st.articles.length - (st.articles.filter (fun a =>
            !(((st.articles.filter (fun b => b.pubDate < now - daysToKeep)).map
                (fun b => b.id) ++ excessIds st.articles cap).contains a.id))).length,
         { st with articles := st.articles.filter (fun a =>
            !(((st.articles.filter (fun b => b.pubDate < now - daysToKeep)).map
                (fun b => b.id) ++ excessIds st.articles cap).contains a.id)) }) := by
      simp only [cleanOldArticles]
      rw [if_neg hempty]
    have hsplit := filter_length_split
      (fun a => ((st.articles.filter (fun b => b.pubDate < now - daysToKeep)).map
          (fun b => b.id) ++ excessIds st.articles cap).contains a.id) st.articles
    have hfeq : st.articles.filter (fun a =>
        ((st.articles.filter (fun b => b.pubDate < now - daysToKeep)).map
            (fun b => b.id) ++ excessIds st.articles cap).contains a.id) =
        st.articles.filter (fun a =>
          decide (a.pubDate < now - daysToKeep) ||
            decide (beyondCap st.articles cap a)) :=
      List.filter_congr hcong
    rw [hres]
    refine ⟨fun a ha => ?_, fun a ha => (List.mem_filter.mp ha).1, ?_, ?_⟩
    · simp only [List.mem_filter, ha, true_and]
      constructor
      · intro h hcond
        have hc := (hchar a ha).mpr hcond
        rw [hc] at h
        simp at h
      · intro h
        cases hc : (((st.articles.filter (fun b => b.pubDate < now - daysToKeep)).map
            (fun b => b.id) ++ excessIds st.articles cap).contains a.id)
        · rfl
        · exact absurd ((hchar a ha).mp hc) h
    · dsimp only
      rw [← hfeq]
      omega
    · have hle := List.length_filter_le (fun a =>
        !(((st.articles.filter (fun b => b.pubDate < now - daysToKeep)).map
            (fun b => b.id) ++ excessIds st.articles cap).contains a.id)) st.articles
      dsimp only
      omega

/-- A fresh in-window article of feed 1. -/
def w5A1 : Article :=
  { id := 1, feedId := 1, title := "t1", link := "l1", pubDate := 10,
    rawContent := "c", author := "", guid := "g1", categories := [] }

/-- An article of feed 1 that is both old and beyond the cap. -/
def w5A2 : Article :=
  { id := 2, feedId := 1, title := "t2", link := "l2", pubDate := 5,
    rawContent := "c", author := "", guid := "g2", categories := [] }

/-- An old article of feed 2. -/
def w5A3 : Article :=
  { id := 3, feedId := 2, title := "t3", link := "l3", pubDate := -100,
    rawContent := "c", author := "", guid := "g3", categories := [] }

/-- The three-article store of the retention witness. -/
def w5Store : Store :=
  { articles := [w5A1, w5A2, w5A3], nextId := 4 }

/-- Witness for C5: with `now = 11`, 5 retention units and a per-feed
cap of 1, exactly the old/beyond-cap articles (one matching both
conditions) are deleted, once each, and the fresh in-window article
stays. -/
theorem cleanOldArticles_correct_witness :
    (cleanOldArticles 11 5 1 w5Store).1 = 2 ∧
    w5A1 ∈ (cleanOldArticles 11 5 1 w5Store).2.articles ∧
    (w5A2 ∈ (cleanOldArticles 11 5 1 w5Store).2.articles ↔
      ¬(w5A2.pubDate < 11 - 5 ∨ beyondCap w5Store.articles 1 w5A2)) := by
  have h := cleanOldArticles_correct 11 5 1 w5Store (by decide)
  refine ⟨h.2.2.1.trans (by decide), ?_, h.1 w5A2 (by decide)⟩
  exact (h.1 w5A1 (by decide)).mpr (by decide)

end Rss
